import Mathlib

/-!
Shallow embedding of the core runtime of `rust-async-http`
(src/reactor.rs, src/runner.rs, src/net.rs, src/fs.rs).

Conventions of the embedding:
* the OS poller's behaviour (which events arrive, whether a syscall
  succeeds) is passed in as explicit parameters, since the embedded code
  only branches on those outcomes;
* a Rust panic is modelled as `none` of an `Option` result;
* `std::task::Waker` values are modelled by an identity (`Waker`), and a
  `wake_by_ref` call is recorded in an output list;
* machine integers (`usize`) are modelled by `Nat`; none of the embedded
  operations can overflow behaviourally (keys and tokens only grow by 1).
-/

set_option linter.unusedVariables false

namespace AsyncRt

/-- Readiness bitmask, mirroring `mio::Ready` restricted to the two bits
the program uses ({Readable, Writable}). -/
structure Ready where
  rd : Bool
  wr : Bool
deriving DecidableEq, Repr

def Ready.empty : Ready := ⟨false, false⟩

def Ready.readable : Ready := ⟨true, false⟩

def Ready.writable : Ready := ⟨false, true⟩

/-- Bitwise OR of two masks (`readiness |= event.readiness()`). -/
def Ready.union (a b : Ready) : Ready := ⟨a.rd || b.rd, a.wr || b.wr⟩

/-- Mask removal (`Ready::remove`): clears the bits of `b` from `a`. -/
def Ready.remove (a b : Ready) : Ready := ⟨a.rd && !b.rd, a.wr && !b.wr⟩

def Ready.is_readable (a : Ready) : Bool := a.rd

def Ready.is_writable (a : Ready) : Bool := a.wr

/-- A `std::task::Waker` value, identified by where it came from:
`noop` is `futures::task::noop_waker()`, `task id` is any other waker
(in the program, the executor waker of task `id`). -/
inductive Waker where
  | noop
  | task (id : Nat)
deriving DecidableEq, Repr

/-- One entry of the `slab::Slab` vector: either occupied by a value or
vacant, storing the index of the next free slot. -/
inductive SlabEntry (α : Type) where
  | occupied (val : α)
  | vacant (nxt : Nat)
deriving DecidableEq, Repr

/-- The `slab::Slab` allocator: a vector of entries plus the head `next`
of the free list (`next = entries.len()` means push on insert). -/
structure Slab (α : Type) where
  entries : List (SlabEntry α)
  next : Nat
deriving DecidableEq, Repr

def Slab.empty {α : Type} : Slab α := ⟨[], 0⟩

/-- Model of `Slab::insert`: take the slot at the free-list head and
return its key. The `occupied` fallback branch is unreachable for any
slab built by these operations (the free-list head is vacant or equals
the length); it returns the slab unchanged. -/
def Slab.insert {α : Type} (s : Slab α) (a : α) : Nat × Slab α :=
  let key := s.next
  if key = s.entries.length then
    (key, ⟨s.entries ++ [SlabEntry.occupied a], key + 1⟩)
  else
    match s.entries[key]? with
    | some (SlabEntry.vacant nxt) => (key, ⟨s.entries.set key (SlabEntry.occupied a), nxt⟩)
    | _ => (key, s)

/-- Model of `Slab::get`: `some` exactly on occupied keys. -/
def Slab.get {α : Type} (s : Slab α) (key : Nat) : Option α :=
  match s.entries[key]? with
  | some (SlabEntry.occupied a) => some a
  | _ => none

/-- Model of `if let Some(v) = slab.get_mut(key) { *v = f v }`: mutate the
occupied entry at `key`, and do nothing when the key is vacant or out of
range. -/
def Slab.modify {α : Type} (s : Slab α) (key : Nat) (f : α → α) : Slab α :=
  match s.entries[key]? with
  | some (SlabEntry.occupied a) => ⟨s.entries.set key (SlabEntry.occupied (f a)), s.next⟩
  | _ => s

/-- Model of `Slab::remove`, which panics (here: `none`) on a missing key;
the freed slot is pushed onto the free list. -/
def Slab.tryRemove {α : Type} (s : Slab α) (key : Nat) : Option (α × Slab α) :=
  match s.entries[key]? with
  | some (SlabEntry.occupied a) =>
    some (a, ⟨s.entries.set key (SlabEntry.vacant s.next), key⟩)
  | _ => none

/-- A slab whose free-list head is immediately usable: it either points
past the end (insert pushes) or at a vacant entry. Any slab reachable by
`insert`/`tryRemove` from `Slab.empty` satisfies this. -/
def Slab.FreeOk {α : Type} (s : Slab α) : Prop :=
  s.next = s.entries.length ∨ ∃ m, s.entries[s.next]? = some (SlabEntry.vacant m)

/-- A Reactor node (struct `Node` of reactor.rs): accumulated readiness
plus the two waker slots. -/
structure Node where
  readiness : Ready
  read_waker : Waker
  write_waker : Waker
deriving DecidableEq, Repr

/-- The Reactor state: the node slab, plus the ghost list `osTokens` of
tokens currently registered with the OS poller (tracking the calls the
code makes to `poll.register` / `poll.deregister`). -/
structure Reactor where
  nodes : Slab Node
  osTokens : List Nat
deriving DecidableEq, Repr

/-- State of `Reactor::new()`: empty slab, nothing registered. -/
def Reactor.initial : Reactor := ⟨Slab.empty, []⟩

/-- Model of `Reactor::register` (reactor.rs lines 33-48): the node is
inserted into the slab FIRST, then the source is registered with the OS
poller; `osOk` is the outcome of that `poll.register` call, and on
failure the `?` operator propagates the error with the slab already
mutated. The public `reactor::register` wrapper passes two noop wakers. -/
def Reactor.register (r : Reactor) (rw ww : Waker) (osOk : Bool) :
    Except Unit Nat × Reactor :=
  let p := r.nodes.insert ⟨Ready.empty, rw, ww⟩
  if osOk then
    (Except.ok p.1, ⟨p.2, r.osTokens ++ [p.1]⟩)
  else
    (Except.error (), ⟨p.2, r.osTokens⟩)

/-- Model of `Reactor::deregister` (reactor.rs lines 50-54): the OS
deregistration runs first (failure propagates, slab untouched), then
`Slab::remove` frees the node (panicking, `none`, if the key is vacant). -/
def Reactor.deregister (r : Reactor) (key : Nat) (osOk : Bool) :
    Option (Except Unit Unit × Reactor) :=
  if osOk then
    match r.nodes.tryRemove key with
    | some p => some (Except.ok (), ⟨p.2, r.osTokens.erase key⟩)
    | none => none
  else
    some (Except.error (), r)

/-- One OS event as delivered by `mio::Poll::poll`: a token and the
readiness observed on it. -/
structure MioEvent where
  token : Nat
  readiness : Ready
deriving DecidableEq, Repr

/-- The event loop of `Reactor::turn` (reactor.rs lines 59-70): for each
event in order, if its token still maps to a node, OR the readiness into
the mask and record a `wake_by_ref` of the read waker when the event is
readable and of the write waker when writable; otherwise skip it. -/
def Reactor.turnLoop : Reactor → List Waker → List MioEvent → Reactor × List Waker
  | r, acc, [] => (r, acc)
  | r, acc, e :: rest =>
    match r.nodes.get e.token with
    | none => Reactor.turnLoop r acc rest
    | some node =>
      let nodes2 := r.nodes.modify e.token
        (fun n => ⟨n.readiness.union e.readiness, n.read_waker, n.write_waker⟩)
      let acc2 := acc
        ++ (if e.readiness.is_readable then [node.read_waker] else [])
        ++ (if e.readiness.is_writable then [node.write_waker] else [])
      Reactor.turnLoop ⟨nodes2, r.osTokens⟩ acc2 rest

/-- Model of `Reactor::turn` (reactor.rs lines 56-72): `events` is what
the OS poller delivered; the returned `Nat` is the `n` that
`mio::Poll::poll` reported, i.e. the number of delivered events. -/
def Reactor.turn (r : Reactor) (events : List MioEvent) :
    Reactor × List Waker × Nat :=
  let p := Reactor.turnLoop r [] events
  (p.1, p.2, events.length)

/-- Model of `ReactorHandle::readiness` (reactor.rs lines 122-124): the
inner `Reactor::readiness` returns an `Option` and the handle calls
`.unwrap()` on it, so a missing node is a panic, modelled as `none`. -/
def handleReadiness (r : Reactor) (key : Nat) : Option Ready :=
  (r.nodes.get key).map Node.readiness

/-- Model of `Reactor::remove_readiness`: clears bits on the node at
`key`; silent no-op when the node is missing. -/
def Reactor.remove_readiness (r : Reactor) (key : Nat) (ready : Ready) : Reactor :=
  ⟨r.nodes.modify key (fun n => ⟨n.readiness.remove ready, n.read_waker, n.write_waker⟩),
   r.osTokens⟩

/-- Model of `Reactor::set_read_waker`: replaces the read waker slot;
silent no-op when the node is missing. -/
def Reactor.set_read_waker (r : Reactor) (key : Nat) (w : Waker) : Reactor :=
  ⟨r.nodes.modify key (fun n => ⟨n.readiness, w, n.write_waker⟩), r.osTokens⟩

/-- Model of `Reactor::set_write_waker`: replaces the write waker slot;
silent no-op when the node is missing. -/
def Reactor.set_write_waker (r : Reactor) (key : Nat) (w : Waker) : Reactor :=
  ⟨r.nodes.modify key (fun n => ⟨n.readiness, n.read_waker, w⟩), r.osTokens⟩

/-- Model of `ReactorHandle::reset_read_waker`: installs a noop waker. -/
def Reactor.reset_read_waker (r : Reactor) (key : Nat) : Reactor :=
  r.set_read_waker key Waker.noop

/-- Model of `ReactorHandle::reset_write_waker`: installs a noop waker. -/
def Reactor.reset_write_waker (r : Reactor) (key : Nat) : Reactor :=
  r.set_write_waker key Waker.noop

/-! TCP adapters (net.rs). Each poll branches on the node's readiness and
on the outcome of the underlying non-blocking syscall, which is passed in
as a `SysRes` parameter. -/

/-- Outcome of the underlying non-blocking syscall (`accept`, `read`,
`write`): `WouldBlock`, success with a value, or another error. -/
inductive SysRes where
  | wouldBlock
  | ok (n : Nat)
  | err
deriving DecidableEq, Repr

/-- Result polarity of a `poll` call. -/
inductive PollOut where
  | pending
  | ready
deriving DecidableEq, Repr

/-- Model of `TcpStream::from_mio` (net.rs lines 57-63): registers the
socket for readable | writable interest; `reactor::register` installs two
noop wakers. -/
def TcpStream.from_mio (r : Reactor) (osOk : Bool) : Except Unit Nat × Reactor :=
  Reactor.register r Waker.noop Waker.noop osOk

/-- Model of `TcpListener::poll_accept` (net.rs lines 29-47). `key` is the
listener's reactor token, `w` the current task's waker, `sys` the outcome
`self.listener.accept()` would have, `osOk` the OS-registration outcome
inside `TcpStream::from_mio` on the success path. `none` models the panic
of `readiness().unwrap()` on a missing node. -/
def TcpListener.poll_accept (r : Reactor) (key : Nat) (w : Waker)
    (sys : SysRes) (osOk : Bool) : Option (Reactor × PollOut) :=
  match handleReadiness r key with
  | none => none
  | some rdy =>
    if rdy.is_readable then
      match sys with
      | SysRes.wouldBlock =>
        some (((r.remove_readiness key Ready.readable).set_read_waker key w),
              PollOut.pending)
      | SysRes.ok _ => some ((TcpStream.from_mio r osOk).2, PollOut.ready)
      | SysRes.err => some (r, PollOut.ready)
    else
      some (r.set_read_waker key w, PollOut.pending)

/-- Model of `TcpStream::poll_read` (net.rs lines 70-94): on `WouldBlock`
clear the readable bit, install the waker, return Pending; on any other
syscall result reset the read waker to noop and return Ready; when the
readable bit is clear, install the waker and return Pending. -/
def TcpStream.poll_read (r : Reactor) (key : Nat) (w : Waker)
    (sys : SysRes) : Option (Reactor × PollOut) :=
  match handleReadiness r key with
  | none => none
  | some rdy =>
    if rdy.is_readable then
      match sys with
      | SysRes.wouldBlock =>
        some (((r.remove_readiness key Ready.readable).set_read_waker key w),
              PollOut.pending)
      | _ => some (r.reset_read_waker key, PollOut.ready)
    else
      some (r.set_read_waker key w, PollOut.pending)

/-- Model of `TcpStream::poll_write` (net.rs lines 96-119): the mirror of
`poll_read` on the writable bit and write-waker slot. -/
def TcpStream.poll_write (r : Reactor) (key : Nat) (w : Waker)
    (sys : SysRes) : Option (Reactor × PollOut) :=
  match handleReadiness r key with
  | none => none
  | some rdy =>
    if rdy.is_writable then
      match sys with
      | SysRes.wouldBlock =>
        some (((r.remove_readiness key Ready.writable).set_write_waker key w),
              PollOut.pending)
      | _ => some (r.reset_write_waker key, PollOut.ready)
    else
      some (r.set_write_waker key w, PollOut.pending)

/-- Model of `TcpListener::bind` (net.rs lines 16-23): registers the
listener with readable interest (noop wakers) and wraps it. -/
def TcpListener.bind (r : Reactor) (osOk : Bool) : Except Unit Nat × Reactor :=
  Reactor.register r Waker.noop Waker.noop osOk

/-- Model of dropping a `TcpListener`: net.rs defines no `Drop` impl for
`TcpListener`, and `impl Drop for ReactorHandle` (reactor.rs lines
159-163) has an empty body (only the comment `// deregister`), so nothing
happens to the Reactor. -/
def TcpListener.drop (r : Reactor) (key : Nat) : Reactor := r

/-- Model of `impl Drop for TcpStream` (net.rs lines 131-136):
`let _ = self.reactor.deregister(&self.sock)` — the error value is
discarded but the deregistration itself runs; `none` is the panic of
`Slab::remove` on a vacant key. -/
def TcpStream.drop (r : Reactor) (key : Nat) (osOk : Bool) : Option Reactor :=
  (r.deregister key osOk).map (fun p => p.2)

/-- Model of `impl Drop for File` (fs.rs lines 101-105): identical shape
to the stream's drop, deregistering the file's in-process registration. -/
def File.drop (r : Reactor) (key : Nat) (osOk : Bool) : Option Reactor :=
  (r.deregister key osOk).map (fun p => p.2)

/-! The executor (runner.rs). -/

/-- Result of polling a future once. -/
inductive PollRes where
  | ready
  | pending
deriving DecidableEq, Repr

/-- A task (a `LocalBoxFuture` plus its poll count). `step n` is the
behaviour of the n-th poll of this future: the value it returns, paired
with `true` when the future's body invokes a waker of this runner
synchronously during that poll (`wake`/`wake_by_ref` on any clone; the
two are equivalent here, both reach `WakerImpl::wake_by_ref`). -/
structure RTask where
  step : Nat → PollRes × Bool
  polls : Nat

/-- The `Runner` state (runner.rs lines 11-17): keyed tasks, the
pending-admission buffer `spawned_tasks`, the shared `woke` set (a hash
set, modelled as a duplicate-free list), and the key counter. The cached
`Option<Waker>` per task is elided: it only avoids reallocating the waker
and has no observable effect. -/
structure Runner where
  tasks : List (Nat × RTask)
  spawned_tasks : List (Nat → PollRes × Bool)
  woke : List Nat
  next_key : Nat

def Runner.initial : Runner := ⟨[], [], [], 0⟩

/-- Model of `Spawner::spawn`: pushes the future onto the shared
pending-admission buffer. -/
def Runner.spawn (r : Runner) (beh : Nat → PollRes × Bool) : Runner :=
  ⟨r.tasks, r.spawned_tasks ++ [beh], r.woke, r.next_key⟩

/-- Hash-set insert on the woken set, modelled on lists: a no-op when the
key is already present. -/
def wokeInsert (l : List Nat) (k : Nat) : List Nat :=
  if k ∈ l then l else l ++ [k]

/-- Model of a waker invocation from outside `run` (e.g. from
`Reactor::turn`): inserts the waker's key into the shared woken set.
`WakerImpl::wake` and `wake_by_ref` both do exactly this. -/
def Runner.wake (r : Runner) (k : Nat) : Runner :=
  ⟨r.tasks, r.spawned_tasks, wokeInsert r.woke k, r.next_key⟩

/-- Association-list lookup for `self.tasks.get_mut(&key)`. -/
def findTask (ts : List (Nat × RTask)) (k : Nat) : Option RTask :=
  (ts.find? (fun p => p.1 == k)).map Prod.snd

/-- Model of `self.tasks.remove(&key)`. -/
def removeTask (ts : List (Nat × RTask)) (k : Nat) : List (Nat × RTask) :=
  ts.filter (fun p => p.1 != k)

/-- Advances the poll counter of task `k` after a Pending poll. -/
def bumpPolls (ts : List (Nat × RTask)) (k : Nat) : List (Nat × RTask) :=
  ts.map (fun p => if p.1 == k then (p.1, ⟨p.2.step, p.2.polls + 1⟩) else p)

/-- The admission loop of `Runner::move_tasks`, recursing over the
drained pending-admission buffer. -/
def Runner.moveLoop :
    List (Nat → PollRes × Bool) → List (Nat × RTask) → List Nat → Nat →
    List (Nat × RTask) × List Nat × Nat
  | [], tasks, woke, next_key => (tasks, woke, next_key)
  | beh :: rest, tasks, woke, next_key =>
    Runner.moveLoop rest (tasks ++ [(next_key, ⟨beh, 0⟩)])
      (wokeInsert woke next_key) (next_key + 1)

/-- Model of `Runner::move_tasks` (runner.rs lines 30-38): drain the
pending-admission buffer, keying each future with `next_key` and
inserting the fresh key into the woken set. -/
def Runner.move_tasks (r : Runner) : Runner :=
  let p := Runner.moveLoop r.spawned_tasks r.tasks r.woke r.next_key
  ⟨p.1, [], p.2.1, p.2.2⟩

/-- The drain loop of `Runner::run` (runner.rs lines 43-55). The `woke`
set is mutably borrowed (`RefCell::borrow_mut`) for the whole loop, so a
task that synchronously invokes a waker during its own poll makes
`WakerImpl::wake_by_ref` panic with a `RefCell` double borrow: that is
the `none` outcome. Otherwise: a key whose task is gone is skipped; a
Ready task is removed; a Pending task's key is inserted by `run` itself
into the fresh `new_woke` set. Returns the surviving tasks, the new woken
set, and the trace of (key, poll result) pairs in poll order. -/
def Runner.runLoop :
    List Nat → List (Nat × RTask) →
    Option (List (Nat × RTask) × List Nat × List (Nat × PollRes))
  | [], tasks => some (tasks, [], [])
  | k :: rest, tasks =>
    match findTask tasks k with
    | none => Runner.runLoop rest tasks
    | some t =>
      match t.step t.polls with
      | (_, true) => none
      | (PollRes.ready, false) =>
        (Runner.runLoop rest (removeTask tasks k)).map
          (fun out => (out.1, out.2.1, (k, PollRes.ready) :: out.2.2))
      | (PollRes.pending, false) =>
        (Runner.runLoop rest (bumpPolls tasks k)).map
          (fun out => (out.1, wokeInsert out.2.1 k, (k, PollRes.pending) :: out.2.2))

/-- Model of `Runner::run` (runner.rs lines 40-57): admit spawned tasks,
drain the woken set, poll each admitted key once, and finally REPLACE the
woken set with `new_woke`. Returns `none` on the double-borrow panic,
otherwise the new state plus the poll trace of this pass. -/
def Runner.run (r : Runner) : Option (Runner × List (Nat × PollRes)) :=
  let r1 := r.move_tasks
  (Runner.runLoop r1.woke r1.tasks).map
    (fun out => (⟨out.1, r1.spawned_tasks, out.2.1, r1.next_key⟩, out.2.2))

/-! The blocking-I/O offload queue (fs.rs). -/

/-- A regular file as the worker thread sees it: its byte contents and
the current cursor position. -/
structure FsFile where
  contents : List Nat
  pos : Nat
deriving DecidableEq, Repr

/-- Model of `file.metadata()?.len()`. -/
def FsFile.size (f : FsFile) : Nat := f.contents.length

/-- Model of the blocking `file.read(&mut buf)` on a regular file: fills
the buffer with the next `min(buf.len(), size - pos)` bytes and returns
that count (regular-file model: no short reads, no error). -/
def FsFile.readInto (f : FsFile) (len : Nat) : Nat × FsFile :=
  let n := min len (f.size - f.pos)
  (n, ⟨f.contents, f.pos + n⟩)

/-- Model of `FsQueue::read` (fs.rs lines 182-190): allocate
`min(max_len, size)` zero bytes, read into it, then `buf.resize(n, 0)` to
the count actually read. Returns (allocated length, final buffer); the
final buffer is exactly the bytes the read produced. -/
def FsQueue.read (f : FsFile) (max_len : Nat) : Nat × List Nat :=
  let len := min max_len f.size
  let p := f.readInto len
  (len, (f.contents.drop f.pos).take p.1)

/-- Token-level state of the `FsQueue` (fs.rs lines 136-141): the token
counter (`next_token` starts at 1), the tokens of tasks sitting in the
submission channel, the tokens of results sitting in the result channel,
the tokens present in the mutex-guarded result map, and a ghost trace of
tokens handed out by `push_task` in order. Map insertion is modelled as
an append, which matches `HashMap::insert` because reachable states never
hold a token twice. -/
structure QueueState where
  next_token : Nat
  taskChan : List Nat
  resultChan : List Nat
  result_map : List Nat
  issued : List Nat
deriving DecidableEq, Repr

/-- State of `FsQueue::spawn` (fs.rs lines 146-180). -/
def QueueState.initial : QueueState := ⟨1, [], [], [], []⟩

/-- Model of `FsQueue::push_task` (fs.rs lines 192-202): the token is
`next_token.fetch_add(1)` and the task is sent on the channel. -/
def QueueState.push_task (s : QueueState) : Nat × QueueState :=
  (s.next_token,
   ⟨s.next_token + 1, s.taskChan ++ [s.next_token], s.resultChan,
    s.result_map, s.issued ++ [s.next_token]⟩)

/-- One iteration of the worker loop (fs.rs lines 149-172): receive the
oldest submitted task, perform the blocking operation, and send its
result (same token) on the result channel. -/
def QueueState.workerStep (s : QueueState) : QueueState :=
  match s.taskChan with
  | [] => s
  | t :: rest => ⟨s.next_token, rest, s.resultChan ++ [t], s.result_map, s.issued⟩

/-- Model of `FsQueue::move_results` (fs.rs lines 216-222): drain the
result channel into the result map. -/
def QueueState.move_results (s : QueueState) : QueueState :=
  ⟨s.next_token, s.taskChan, [], s.result_map ++ s.resultChan, s.issued⟩

/-- Model of `FsQueue::result` (fs.rs lines 224-231): first drain the
channel into the map, then `map.remove(&key)`; `some ()` is a successful
retrieval (the entry leaves the map), `none` means the result was not
there. -/
def QueueState.result (s : QueueState) (key : Nat) : Option Unit × QueueState :=
  let s2 := s.move_results
  if key ∈ s2.result_map then
    (some (), ⟨s2.next_token, s2.taskChan, s2.resultChan,
               s2.result_map.erase key, s2.issued⟩)
  else
    (none, s2)

/-- The operations the executor thread and the worker thread interleave
on the queue. -/
inductive QOp where
  | push
  | worker
  | getResult (key : Nat)
deriving DecidableEq, Repr

def QueueState.apply (s : QueueState) : QOp → QueueState
  | QOp.push => s.push_task.2
  | QOp.worker => s.workerStep
  | QOp.getResult k => (s.result k).2

def QueueState.applyAll (s : QueueState) (ops : List QOp) : QueueState :=
  ops.foldl QueueState.apply s

/-- All the places a token can live between submission and retrieval. -/
def QueueState.allTokens (s : QueueState) : List Nat :=
  s.taskChan ++ s.resultChan ++ s.result_map

/-- The queue's token invariant: issued tokens are strictly increasing
and below the counter, and a token occurs at most once across the
channels and the map. -/
def QueueState.Inv (s : QueueState) : Prop :=
  s.issued.Pairwise (· < ·) ∧
  (∀ t ∈ s.issued, t < s.next_token) ∧
  (∀ t, List.count t s.allTokens ≤ 1) ∧
  (∀ t ∈ s.allTokens, t < s.next_token)

/-! The file adapter's read path (fs.rs lines 49-72 and 234-248). -/

/-- Offload-queue environment as the file adapter sees it: the token
counter, the submitted read requests (token, max_len) in order, and the
completed results (token, bytes) retrievable by token. -/
structure FsEnv where
  next_token : Nat
  submitted : List (Nat × Nat)
  results : List (Nat × List Nat)
deriving DecidableEq, Repr

/-- Model of `FsQueue::push_read` (fs.rs lines 210-214): issue a token
and submit a bounded read request. -/
def FsEnv.push_read (env : FsEnv) (len : Nat) : Nat × FsEnv :=
  (env.next_token,
   ⟨env.next_token + 1, env.submitted ++ [(env.next_token, len)], env.results⟩)

/-- Model of `buf[..src.len()].copy_from_slice(&src)` (fs.rs line 64):
panics (`none`) when `src.len() > buf.len()` (range out of bounds),
otherwise overwrites the first `src.len()` bytes of `buf`. -/
def copyFromSlice (buf src : List Nat) : Option (List Nat) :=
  if src.length ≤ buf.length then some (src ++ buf.drop src.length) else none

/-- Outcome of one `File::poll_read` call: Pending with the cached handle
token, Ready with the filled buffer and the byte count, or a panic. -/
inductive FilePollOut where
  | pending (cached : Nat)
  | readyOk (buf : List Nat) (n : Nat)
  | panicked
deriving DecidableEq, Repr

/-- Model of `File::poll_read` (fs.rs lines 50-72). `read_handle` is the
cached `self.read_handle` token (`none` on the first poll, in which case
a read bounded by the CURRENT buffer's length is submitted and the handle
cached). Driving the handle is `FsQueueHandle::poll` (fs.rs lines
239-248), which ignores its `Context` entirely: no waker is installed
anywhere. When the result is available its bytes are copied into the
buffer passed to the current poll, panicking if that buffer is shorter
than the result. -/
def File.poll_read (read_handle : Option Nat) (env : FsEnv) (buf : List Nat) :
    FilePollOut × FsEnv :=
  let p := match read_handle with
    | none => env.push_read buf.length
    | some t => (t, env)
  match p.2.results.lookup p.1 with
  | none => (FilePollOut.pending p.1, p.2)
  | some src =>
    match copyFromSlice buf src with
    | none => (FilePollOut.panicked, p.2)
    | some buf2 => (FilePollOut.readyOk buf2 src.length, p.2)

/-- Model of `File::poll_read` with the file's Reactor state in scope:
the body of `poll_read` never touches `self.reactor` (and
`FsQueueHandle::poll` ignores `cx`), so the Reactor — including the
node's waker slots — is returned unchanged whatever `w` is. -/
def File.poll_read_reactor (r : Reactor) (key : Nat) (w : Waker)
    (read_handle : Option Nat) (env : FsEnv) (buf : List Nat) :
    Reactor × FilePollOut × FsEnv :=
  (r, File.poll_read read_handle env buf)

/-! Helper lemmas about the slab. -/

theorem Slab.get_none_of_entry {α : Type} (s : Slab α) (key : Nat)
    (h : ∀ a, s.entries[key]? ≠ some (SlabEntry.occupied a)) :
    s.get key = none := by
  unfold Slab.get
  cases he : s.entries[key]? with
  | none => rfl
  | some e =>
    cases e with
    | occupied a => exact absurd he (h a)
    | vacant m => rfl

theorem Slab.modify_of_get_none {α : Type} (s : Slab α) (key : Nat) (f : α → α)
    (h : s.get key = none) : s.modify key f = s := by
  unfold Slab.modify
  unfold Slab.get at h
  cases he : s.entries[key]? with
  | none => rfl
  | some e =>
    cases e with
    | occupied a => rw [he] at h; simp at h
    | vacant m => rfl

theorem Slab.lt_length_of_getElem {α : Type} {l : List (SlabEntry α)} {i : Nat}
    {e : SlabEntry α} (he : l[i]? = some e) : i < l.length := by
  by_contra hc
  rw [List.getElem?_eq_none (Nat.le_of_not_lt hc)] at he
  exact Option.noConfusion he

theorem Slab.get_modify {α : Type} (s : Slab α) (key j : Nat) (f : α → α) :
    (s.modify key f).get j = if j = key then (s.get key).map f else s.get j := by
  by_cases hj : j = key
  · subst hj
    unfold Slab.modify Slab.get
    cases he : s.entries[j]? with
    | none => simp [he]
    | some e =>
      cases e with
      | occupied a =>
        have hk : j < s.entries.length := Slab.lt_length_of_getElem he
        simp [he, List.getElem?_set, hk]
      | vacant m => simp [he]
  · unfold Slab.modify Slab.get
    cases he : s.entries[key]? with
    | none => simp [hj]
    | some e =>
      cases e with
      | occupied a => simp [hj, List.getElem?_set_ne (fun h2 => hj h2.symm)]
      | vacant m => simp [hj]

theorem Slab.get_modify_self {α : Type} (s : Slab α) (key : Nat) (f : α → α) :
    (s.modify key f).get key = (s.get key).map f := by
  rw [Slab.get_modify]; simp

theorem Slab.get_modify_ne {α : Type} (s : Slab α) (key j : Nat) (f : α → α)
    (h : j ≠ key) : (s.modify key f).get j = s.get j := by
  rw [Slab.get_modify]; simp [h]

theorem Slab.get_insert {α : Type} (s : Slab α) (a : α) (h : s.FreeOk) :
    (s.insert a).2.get (s.insert a).1 = some a := by
  unfold Slab.insert
  by_cases hk : s.next = s.entries.length
  · simp only [if_pos hk]
    unfold Slab.get
    rw [hk, List.getElem?_append_right (Nat.le_refl _)]
    simp
  · simp only [if_neg hk]
    rcases h with h | ⟨m, hm⟩
    · exact absurd h hk
    · have hlt : s.next < s.entries.length := Slab.lt_length_of_getElem hm
      rw [hm]
      unfold Slab.get
      simp [List.getElem?_set, hlt]

/-! Reactor-level corollaries used by the adapter-poll proofs. -/

theorem Reactor.get_set_read_waker (r : Reactor) (key : Nat) (w : Waker) :
    (r.set_read_waker key w).nodes.get key =
      (r.nodes.get key).map (fun n => ⟨n.readiness, w, n.write_waker⟩) := by
  unfold Reactor.set_read_waker
  exact Slab.get_modify_self _ _ _

theorem Reactor.get_set_write_waker (r : Reactor) (key : Nat) (w : Waker) :
    (r.set_write_waker key w).nodes.get key =
      (r.nodes.get key).map (fun n => ⟨n.readiness, n.read_waker, w⟩) := by
  unfold Reactor.set_write_waker
  exact Slab.get_modify_self _ _ _

theorem Reactor.get_remove_readiness (r : Reactor) (key : Nat) (rd : Ready) :
    (r.remove_readiness key rd).nodes.get key =
      (r.nodes.get key).map
        (fun n => ⟨n.readiness.remove rd, n.read_waker, n.write_waker⟩) := by
  unfold Reactor.remove_readiness
  exact Slab.get_modify_self _ _ _

/-- Claim C9: calling `ReactorHandle::readiness()` when the node is no
longer in the slab panics (the inner lookup yields `none` and the handle
unwraps it), whereas `remove_readiness`, `set_read_waker`,
`set_write_waker` and the two reset variants leave the Reactor entirely
unchanged on a missing node. -/
theorem c9_missing_node_ops (r : Reactor) (key : Nat) (w : Waker) (rd : Ready)
    (h : r.nodes.get key = none) :
    handleReadiness r key = none ∧
    r.remove_readiness key rd = r ∧
    r.set_read_waker key w = r ∧
    r.set_write_waker key w = r ∧
    r.reset_read_waker key = r ∧
    r.reset_write_waker key = r := by
  have hm : ∀ f, r.nodes.modify key f = r.nodes :=
    fun f => Slab.modify_of_get_none _ _ _ h
  refine ⟨?_, ?_, ?_, ?_, ?_, ?_⟩ <;>
    simp [handleReadiness, Reactor.remove_readiness, Reactor.set_read_waker,
      Reactor.set_write_waker, Reactor.reset_read_waker,
      Reactor.reset_write_waker, h, hm]

/-- Witness for C9 at the empty Reactor and key 0. -/
theorem c9_missing_node_ops_witness :
    handleReadiness Reactor.initial 0 = none ∧
    Reactor.initial.remove_readiness 0 Ready.readable = Reactor.initial ∧
    Reactor.initial.set_read_waker 0 (Waker.task 3) = Reactor.initial ∧
    Reactor.initial.set_write_waker 0 (Waker.task 3) = Reactor.initial ∧
    Reactor.initial.reset_read_waker 0 = Reactor.initial ∧
    Reactor.initial.reset_write_waker 0 = Reactor.initial :=
  c9_missing_node_ops Reactor.initial 0 (Waker.task 3) Ready.readable rfl

/-- Claim C4 counterexample: on a fresh Reactor, a register whose OS
registration fails does surface the error, but the slab is NOT left
unchanged — the node inserted before the failing `poll.register` call is
still there (token 0), while no OS registration exists for it. -/
theorem c4_register_fail_counterexample :
    (Reactor.initial.register Waker.noop Waker.noop false).1 = Except.error () ∧
    (Reactor.initial.register Waker.noop Waker.noop false).2.nodes.get 0 =
      some ⟨Ready.empty, Waker.noop, Waker.noop⟩ ∧
    Reactor.initial.nodes.get 0 = none ∧
    (Reactor.initial.register Waker.noop Waker.noop false).2.osTokens = [] := by
  refine ⟨rfl, rfl, rfl, rfl⟩

/-- Claim C4 (amended): if the OS-poller registration inside
`Reactor::register` fails, the failure is surfaced to the caller as an
I/O error and no OS registration is recorded, but the slab is changed:
the node inserted before the OS call remains in it, breaking the
node-iff-OS-registration invariant. -/
theorem c4_register_fail_amended (r : Reactor) (rw ww : Waker)
    (h : r.nodes.FreeOk) :
    (r.register rw ww false).1 = Except.error () ∧
    (r.register rw ww false).2.nodes.get
        (r.nodes.insert ⟨Ready.empty, rw, ww⟩).1 =
      some ⟨Ready.empty, rw, ww⟩ ∧
    (r.register rw ww false).2.osTokens = r.osTokens := by
  refine ⟨rfl, ?_, rfl⟩
  exact Slab.get_insert _ _ h

/-- Witness for C4 (amended) at the empty Reactor. -/
theorem c4_register_fail_amended_witness :
    (Reactor.initial.register Waker.noop Waker.noop false).1 = Except.error () ∧
    (Reactor.initial.register Waker.noop Waker.noop false).2.nodes.get
        (Reactor.initial.nodes.insert ⟨Ready.empty, Waker.noop, Waker.noop⟩).1 =
      some ⟨Ready.empty, Waker.noop, Waker.noop⟩ ∧
    (Reactor.initial.register Waker.noop Waker.noop false).2.osTokens =
      Reactor.initial.osTokens :=
  c4_register_fail_amended Reactor.initial Waker.noop Waker.noop (Or.inl rfl)

/-- Claim C5: dropping a `TcpListener` does NOT remove its node from the
slab and does NOT cancel the OS registration — net.rs has no `Drop` impl
for `TcpListener` and `impl Drop for ReactorHandle` is an empty stub
(whose body is only the comment `// deregister`), so after binding a
listener on a fresh Reactor (token 0) and dropping it, the Reactor is
unchanged: the node is still occupied and the OS token still registered.
By contrast, `TcpStream`'s explicit `Drop` does deregister. -/
theorem c5_listener_drop_leaks :
    (TcpListener.bind Reactor.initial true).1 = Except.ok 0 ∧
    TcpListener.drop (TcpListener.bind Reactor.initial true).2 0 =
      (TcpListener.bind Reactor.initial true).2 ∧
    ((TcpListener.bind Reactor.initial true).2.nodes.get 0).isSome = true ∧
    (TcpListener.bind Reactor.initial true).2.osTokens = [0] ∧
    (TcpStream.drop (TcpListener.bind Reactor.initial true).2 0 true).map
      (fun r => (r.nodes.get 0, r.osTokens)) = some (none, []) := by
  refine ⟨rfl, rfl, rfl, rfl, rfl⟩

/-- The future of claim C2's scenario: it returns Pending and invokes its
own waker synchronously during the poll. -/
def c2Runner : Runner := Runner.initial.spawn (fun _ => (PollRes.pending, true))

/-- Claim C2: a task that returns Pending and arranges for its waker to
be invoked synchronously during its own poll does NOT let `run()`
complete normally: the WokenSet's `RefCell` is mutably borrowed for the
whole drain loop of `Runner::run`, so `WakerImpl::wake_by_ref`'s
`borrow_mut` panics (modelled as `none`); the task is not re-polled on a
next `run()` because the current one never returns. -/
theorem c2_sync_wake_panics : c2Runner.run = none := rfl

/-! Claim C1: what run() does with the key of a Pending task. -/

theorem mem_wokeInsert (l : List Nat) (k a : Nat) :
    a ∈ wokeInsert l k ↔ a ∈ l ∨ a = k := by
  unfold wokeInsert
  by_cases hk : k ∈ l
  · simp only [if_pos hk]
    constructor
    · exact Or.inl
    · rintro (h | rfl)
      · exact h
      · exact hk
  · simp [if_neg hk]

theorem runLoop_woke_iff_pending (keys : List Nat) :
    ∀ tasks out, Runner.runLoop keys tasks = some out →
      ∀ k, k ∈ out.2.1 ↔ (k, PollRes.pending) ∈ out.2.2 := by
  induction keys with
  | nil =>
    intro tasks out h k
    cases h
    simp
  | cons key rest ih =>
    intro tasks out h k
    unfold Runner.runLoop at h
    cases hf : findTask tasks key with
    | none =>
      rw [hf] at h
      exact ih tasks out h k
    | some t =>
      rw [hf] at h
      dsimp only at h
      cases hs : t.step t.polls with
      | mk res syncWake =>
        rw [hs] at h
        cases syncWake with
        | true => cases res <;> simp at h
        | false =>
          cases res with
          | ready =>
            dsimp only at h
            cases ho : Runner.runLoop rest (removeTask tasks key) with
            | none => rw [ho] at h; exact absurd h (by simp)
            | some out2 =>
              rw [ho] at h
              have h3 := Option.some.inj h
              subst h3
              have := ih _ out2 ho k
              simp only [List.mem_cons]
              rw [this]
              constructor
              · exact Or.inr
              · rintro (hp | hp)
                · exact absurd hp (by simp)
                · exact hp
          | pending =>
            dsimp only at h
            cases ho : Runner.runLoop rest (bumpPolls tasks key) with
            | none => rw [ho] at h; exact absurd h (by simp)
            | some out2 =>
              rw [ho] at h
              have h3 := Option.some.inj h
              subst h3
              have := ih _ out2 ho k
              simp only [List.mem_cons, mem_wokeInsert]
              rw [this]
              constructor
              · rintro (hp | rfl)
                · exact Or.inr hp
                · exact Or.inl rfl
              · rintro (hp | hp)
                · exact Or.inr (congrArg Prod.fst hp)
                · exact Or.inl hp

/-- The future of claim C1's scenario: it always returns Pending and
never installs or invokes any waker. -/
def c1Runner : Runner := Runner.initial.spawn (fun _ => (PollRes.pending, false))

/-- Claim C1 counterexample: spawn one task that always returns Pending
and never installs or invokes any waker. After `run()` the WokenSet is
[0], not the empty set of waker-re-added keys, and a second `run()` polls
the task again — refuting both "the executor does nothing with its key"
and "a task that returns Pending without installing its waker anywhere is
never polled again". -/
theorem c1_pending_counterexample :
    (c1Runner.run.map (fun p => (p.1.woke, p.2))) =
      some ([0], [(0, PollRes.pending)]) ∧
    (c1Runner.run.bind (fun p => p.1.run)).map (fun p => (p.1.woke, p.2)) =
      some ([0], [(0, PollRes.pending)]) ∧
    ([0] : List Nat) ≠ [] := by
  refine ⟨rfl, rfl, by decide⟩

/-- Claim C1 (amended): when `run()` returns normally, the new WokenSet
contains exactly the keys of the tasks polled during that call that
returned Pending — `run()` itself re-inserts each Pending task's key
(runner.rs line 52), independently of any waker activity — so a task that
returns Pending without installing its waker anywhere is polled again on
every subsequent `run()`, not never again. -/
theorem c1_run_woke_amended (r : Runner) (out : Runner × List (Nat × PollRes))
    (h : r.run = some out) :
    ∀ k, k ∈ out.1.woke ↔ (k, PollRes.pending) ∈ out.2 := by
  have h2 : (Runner.runLoop r.move_tasks.woke r.move_tasks.tasks).map
      (fun o =>
        ((⟨o.1, r.move_tasks.spawned_tasks, o.2.1, r.move_tasks.next_key⟩ : Runner),
         o.2.2)) = some out := h
  cases ho : Runner.runLoop r.move_tasks.woke r.move_tasks.tasks with
  | none => rw [ho] at h2; exact absurd h2 (by simp)
  | some out2 =>
    rw [ho] at h2
    have h3 := Option.some.inj h2
    subst h3
    exact runLoop_woke_iff_pending _ _ out2 ho

/-- Witness for C1 (amended): a runner with a single immediately-Ready
task; its run leaves the WokenSet empty and the trace Ready-only. -/
theorem c1_run_woke_amended_witness :
    0 ∈ (Runner.mk [] [] [] 1).woke ↔
      (0, PollRes.pending) ∈ [(0, PollRes.ready)] :=
  c1_run_woke_amended (Runner.initial.spawn (fun _ => (PollRes.ready, false)))
    (Runner.mk [] [] [] 1, [(0, PollRes.ready)]) rfl 0

/-! Claim C3: waker installation on Pending returns. -/

/-- The Reactor after a `File::open` registration: one node (token 0)
with empty readiness and the two noop wakers `reactor::register`
installs. -/
def rFile : Reactor := (Reactor.initial.register Waker.noop Waker.noop true).2

/-- Claim C3 counterexample: the file adapter, polled with current waker
`task 5` while its offload result is not yet available, returns Pending
WITHOUT installing that waker into its Reactor node — the Reactor is
bit-for-bit unchanged and the node's read-waker slot still holds the noop
waker from registration, which is not the current task's waker. -/
theorem c3_file_poll_counterexample :
    (File.poll_read_reactor rFile 0 (Waker.task 5) none ⟨1, [], []⟩ [0, 0]).1 =
      rFile ∧
    (File.poll_read_reactor rFile 0 (Waker.task 5) none ⟨1, [], []⟩ [0, 0]).2.1 =
      FilePollOut.pending 1 ∧
    (rFile.nodes.get 0).map Node.read_waker = some Waker.noop ∧
    Waker.noop ≠ Waker.task 5 := by
  refine ⟨rfl, rfl, rfl, by decide⟩

/-- Claim C3 (amended): the TCP listener and the TCP stream install the
current task's waker into the matching waker slot of their Reactor node
on every poll that returns Pending; the file adapter does not — its
`poll_read` (driving `FsQueueHandle::poll`, which ignores the task
context) leaves the Reactor, and hence its node's waker slots, entirely
unchanged. -/
theorem c3_adapters_amended :
    (∀ r key w sys osOk out, TcpListener.poll_accept r key w sys osOk = some out →
       out.2 = PollOut.pending →
       (out.1.nodes.get key).map Node.read_waker = some w) ∧
    (∀ r key w sys out, TcpStream.poll_read r key w sys = some out →
       out.2 = PollOut.pending →
       (out.1.nodes.get key).map Node.read_waker = some w) ∧
    (∀ r key w sys out, TcpStream.poll_write r key w sys = some out →
       out.2 = PollOut.pending →
       (out.1.nodes.get key).map Node.write_waker = some w) ∧
    (∀ r key w rh env buf, (File.poll_read_reactor r key w rh env buf).1 = r) := by
  refine ⟨?_, ?_, ?_, fun r key w rh env buf => rfl⟩
  · intro r key w sys osOk out h hp
    unfold TcpListener.poll_accept at h
    cases hg : r.nodes.get key with
    | none => simp [handleReadiness, hg] at h
    | some node =>
      simp only [handleReadiness, hg, Option.map_some'] at h
      cases hr : node.readiness.is_readable with
      | false =>
        simp only [hr, Bool.false_eq_true, if_false, Option.some.injEq] at h
        subst h
        rw [Reactor.get_set_read_waker, hg]
        rfl
      | true =>
        simp only [hr, if_true, Option.some.injEq] at h
        cases sys with
        | wouldBlock =>
          simp only [Option.some.injEq] at h
          subst h
          rw [Reactor.get_set_read_waker, Reactor.get_remove_readiness, hg]
          rfl
        | ok n =>
          simp only [Option.some.injEq] at h
          subst h
          exact absurd hp (by simp)
        | err =>
          simp only [Option.some.injEq] at h
          subst h
          exact absurd hp (by simp)
  · intro r key w sys out h hp
    unfold TcpStream.poll_read at h
    cases hg : r.nodes.get key with
    | none => simp [handleReadiness, hg] at h
    | some node =>
      simp only [handleReadiness, hg, Option.map_some'] at h
      cases hr : node.readiness.is_readable with
      | false =>
        simp only [hr, Bool.false_eq_true, if_false, Option.some.injEq] at h
        subst h
        rw [Reactor.get_set_read_waker, hg]
        rfl
      | true =>
        simp only [hr, if_true, Option.some.injEq] at h
        cases sys with
        | wouldBlock =>
          simp only [Option.some.injEq] at h
          subst h
          rw [Reactor.get_set_read_waker, Reactor.get_remove_readiness, hg]
          rfl
        | ok n =>
          simp only [Option.some.injEq] at h
          subst h
          exact absurd hp (by simp)
        | err =>
          simp only [Option.some.injEq] at h
          subst h
          exact absurd hp (by simp)
  · intro r key w sys out h hp
    unfold TcpStream.poll_write at h
    cases hg : r.nodes.get key with
    | none => simp [handleReadiness, hg] at h
    | some node =>
      simp only [handleReadiness, hg, Option.map_some'] at h
      cases hr : node.readiness.is_writable with
      | false =>
        simp only [hr, Bool.false_eq_true, if_false, Option.some.injEq] at h
        subst h
        rw [Reactor.get_set_write_waker, hg]
        rfl
      | true =>
        simp only [hr, if_true, Option.some.injEq] at h
        cases sys with
        | wouldBlock =>
          simp only [Option.some.injEq] at h
          subst h
          rw [Reactor.get_set_write_waker, Reactor.get_remove_readiness, hg]
          rfl
        | ok n =>
          simp only [Option.some.injEq] at h
          subst h
          exact absurd hp (by simp)
        | err =>
          simp only [Option.some.injEq] at h
          subst h
          exact absurd hp (by simp)

/-- Witness for C3 (amended): the listener's poll with no readable bit
returns Pending and the slot then holds the current waker `task 7`. -/
theorem c3_adapters_amended_witness :
    (((rFile.set_read_waker 0 (Waker.task 7)).nodes.get 0).map Node.read_waker) =
      some (Waker.task 7) :=
  c3_adapters_amended.1 rFile 0 (Waker.task 7) SysRes.err true
    (rFile.set_read_waker 0 (Waker.task 7), PollOut.pending) rfl rfl

/-! Claim C6: transcriptions of the claim's description of `turn`, to be
compared with the embedded `Reactor.turn`. -/

/-- Transcription of the claim's mask clause: each event whose token
still maps to a node has its readiness ORed into that node's mask;
events whose token no longer maps to a node are skipped (`Slab.modify`
is a no-op there). -/
def turnMaskSpec : Slab Node → List MioEvent → Slab Node
  | s, [] => s
  | s, e :: rest =>
    turnMaskSpec
      (s.modify e.token
        (fun n => ⟨n.readiness.union e.readiness, n.read_waker, n.write_waker⟩))
      rest

/-- Transcription of the claim's wake clause: for each event in order
whose token still maps to a node, the node's read waker is invoked (by
reference) if the event is readable and its write waker if writable;
events with no node contribute nothing. Waker slots never change during
`turn`, so the original slab is consulted throughout. -/
def turnWakesSpec : Slab Node → List MioEvent → List Waker
  | _, [] => []
  | s, e :: rest =>
    (match s.get e.token with
     | none => []
     | some node =>
       (if e.readiness.is_readable then [node.read_waker] else [])
       ++ (if e.readiness.is_writable then [node.write_waker] else []))
    ++ turnWakesSpec s rest

theorem turnWakesSpec_congr (events : List MioEvent) :
    ∀ s1 s2 : Slab Node,
      (∀ t, (s1.get t).map (fun n => (n.read_waker, n.write_waker)) =
            (s2.get t).map (fun n => (n.read_waker, n.write_waker))) →
      turnWakesSpec s1 events = turnWakesSpec s2 events := by
  induction events with
  | nil => intro s1 s2 h; rfl
  | cons e rest ih =>
    intro s1 s2 h
    unfold turnWakesSpec
    have he := h e.token
    congr 1
    · cases h1 : s1.get e.token with
      | none =>
        cases h2 : s2.get e.token with
        | none => rfl
        | some n2 => rw [h1, h2] at he; simp at he
      | some n1 =>
        cases h2 : s2.get e.token with
        | none => rw [h1, h2] at he; simp at he
        | some n2 =>
          rw [h1, h2] at he
          simp only [Option.map_some', Option.some.injEq] at he
          have hrw : n1.read_waker = n2.read_waker := congrArg Prod.fst he
          have hww : n1.write_waker = n2.write_waker := congrArg Prod.snd he
          dsimp only
          rw [hrw, hww]
    · exact ih s1 s2 h

theorem turnLoop_spec (events : List MioEvent) :
    ∀ (r : Reactor) (acc : List Waker),
      Reactor.turnLoop r acc events =
        (⟨turnMaskSpec r.nodes events, r.osTokens⟩,
         acc ++ turnWakesSpec r.nodes events) := by
  induction events with
  | nil =>
    intro r acc
    unfold Reactor.turnLoop turnMaskSpec turnWakesSpec
    simp
  | cons e rest ih =>
    intro r acc
    unfold Reactor.turnLoop turnMaskSpec turnWakesSpec
    cases hg : r.nodes.get e.token with
    | none =>
      rw [Slab.modify_of_get_none _ _ _ hg]
      simp only [List.nil_append]
      exact ih r acc
    | some node =>
      dsimp only
      rw [ih]
      have hw : turnWakesSpec
          (r.nodes.modify e.token
            (fun n => ⟨n.readiness.union e.readiness, n.read_waker, n.write_waker⟩))
          rest = turnWakesSpec r.nodes rest := by
        apply turnWakesSpec_congr
        intro tk
        by_cases ht : tk = e.token
        · subst ht
          rw [Slab.get_modify_self]
          cases hx : r.nodes.get e.token <;> simp
        · rw [Slab.get_modify_ne _ _ _ _ ht]
      rw [hw]
      simp [List.append_assoc]

/-- Claim C6: for every sequence of OS events delivered to
`Reactor::turn`, each event whose token still maps to a node has its
readiness ORed into that node's mask, the node's read waker is invoked
by reference if the event is readable and its write waker if writable,
events whose token no longer maps to a node are silently skipped, and
`turn` returns the number of events processed (the count reported by the
OS poll). -/
theorem c6_turn_matches_spec (r : Reactor) (events : List MioEvent) :
    (r.turn events).2.2 = events.length ∧
    (r.turn events).1.nodes = turnMaskSpec r.nodes events ∧
    (r.turn events).1.osTokens = r.osTokens ∧
    (r.turn events).2.1 = turnWakesSpec r.nodes events := by
  unfold Reactor.turn
  rw [turnLoop_spec]
  exact ⟨rfl, rfl, rfl, rfl⟩

/-- Claim C7: an offload read of `N` bytes on a (fresh) file of size `M`
allocates `min N M` bytes before reading, and the returned buffer is
truncated to the byte count actually read; in particular `M < N` yields
a buffer of length exactly `M`. -/
theorem c7_read_bounding (bytes : List Nat) (N : Nat) :
    (FsQueue.read ⟨bytes, 0⟩ N).1 = min N bytes.length ∧
    (FsQueue.read ⟨bytes, 0⟩ N).2.length = min N bytes.length ∧
    (bytes.length < N → (FsQueue.read ⟨bytes, 0⟩ N).2.length = bytes.length) := by
  unfold FsQueue.read FsFile.readInto FsFile.size
  refine ⟨rfl, ?_, ?_⟩ <;>
    (simp only [List.drop_zero, List.length_take, List.length_drop,
       Nat.sub_zero]; intros; omega)

/-- Witness for C7: reading 5 bytes from a 2-byte file yields exactly 2
bytes. -/
theorem c7_read_bounding_witness :
    (FsQueue.read ⟨[7, 7], 0⟩ 5).2.length = [7, 7].length :=
  (c7_read_bounding [7, 7] 5).2.2 (by decide)

/-- Claim C10: `File::poll_read` submits the offload read bounded by the
length of the buffer passed to the first poll (no new submission happens
once the handle is cached), and when the result `src` arrives it is
copied into the buffer passed to the current poll — which panics exactly
when that buffer is shorter than `src`, and otherwise returns Ready with
`src` copied over the buffer's prefix and count `src.length`. -/
theorem c10_poll_read_copy (env : FsEnv) (buf : List Nat) (t : Nat)
    (src : List Nat) :
    ((File.poll_read none env buf).2.submitted =
       env.submitted ++ [(env.next_token, buf.length)]) ∧
    ((File.poll_read (some t) env buf).2.submitted = env.submitted) ∧
    (env.results.lookup t = some src →
       ((File.poll_read (some t) env buf).1 = FilePollOut.panicked ↔
          buf.length < src.length) ∧
       (src.length ≤ buf.length →
          (File.poll_read (some t) env buf).1 =
            FilePollOut.readyOk (src ++ buf.drop src.length) src.length)) := by
  refine ⟨?_, ?_, ?_⟩
  · unfold File.poll_read FsEnv.push_read
    dsimp only
    cases h : env.results.lookup env.next_token with
    | none => rfl
    | some src2 =>
      dsimp only
      cases h2 : copyFromSlice buf src2 <;> rfl
  · unfold File.poll_read
    dsimp only
    cases h : env.results.lookup t with
    | none => rfl
    | some src2 =>
      dsimp only
      cases h2 : copyFromSlice buf src2 <;> rfl
  · intro hlook
    unfold File.poll_read copyFromSlice
    dsimp only
    rw [hlook]
    dsimp only
    by_cases hle : src.length ≤ buf.length
    · rw [if_pos hle]
      refine ⟨?_, fun _ => rfl⟩
      constructor
      · intro hx; exact absurd hx (by simp)
      · intro hx; omega
    · rw [if_neg hle]
      refine ⟨?_, fun hx => absurd hx hle⟩
      constructor
      · intro hx; omega
      · intro hx; rfl

/-- Witness for C10: a 2-byte result arriving into a 3-byte buffer is
copied over its prefix. -/
theorem c10_poll_read_copy_witness :
    (File.poll_read (some 1) ⟨2, [(1, 3)], [(1, [9, 9])]⟩ [0, 0, 0]).1 =
      FilePollOut.readyOk ([9, 9] ++ [0, 0, 0].drop 2) 2 :=
  ((c10_poll_read_copy ⟨2, [(1, 3)], [(1, [9, 9])]⟩ [0, 0, 0] 1 [9, 9]).2.2
    (by decide)).2 (by decide)

/-! Claim C8: offload-token uniqueness and single delivery. -/

theorem count_allTokens (s : QueueState) (t : Nat) :
    List.count t s.allTokens =
      List.count t s.taskChan + List.count t s.resultChan +
        List.count t s.result_map := by
  simp [QueueState.allTokens, List.count_append]
  omega

theorem mem_allTokens (s : QueueState) (t : Nat) :
    t ∈ s.allTokens ↔
      t ∈ s.taskChan ∨ t ∈ s.resultChan ∨ t ∈ s.result_map := by
  simp [QueueState.allTokens, List.mem_append, or_assoc]

theorem inv_initial : QueueState.initial.Inv := by
  refine ⟨List.Pairwise.nil, ?_, ?_, ?_⟩ <;> simp [QueueState.initial, QueueState.allTokens]

theorem inv_push (s : QueueState) (h : s.Inv) : s.push_task.2.Inv := by
  obtain ⟨h1, h2, h3, h4⟩ := h
  refine ⟨?_, ?_, ?_, ?_⟩
  · rw [QueueState.push_task]
    dsimp only
    rw [List.pairwise_append]
    refine ⟨h1, by simp, ?_⟩
    intro a ha b hb
    rw [List.mem_singleton] at hb
    subst hb
    exact h2 a ha
  · intro t ht
    rw [QueueState.push_task] at ht
    dsimp only at ht
    rw [List.mem_append, List.mem_singleton] at ht
    rcases ht with ht | rfl
    · exact Nat.lt_succ_of_lt (h2 t ht)
    · exact Nat.lt_succ_self _
  · intro t
    have hnew : List.count t s.push_task.2.allTokens =
        List.count t s.allTokens +
          (if s.next_token = t then 1 else 0) := by
      rw [count_allTokens, count_allTokens]
      rw [QueueState.push_task]
      dsimp only
      rw [List.count_append]
      simp [List.count_singleton, beq_iff_eq]
      split <;> omega
    rw [hnew]
    by_cases ht : s.next_token = t
    · subst ht
      have hz : List.count s.next_token s.allTokens = 0 := by
        rw [List.count_eq_zero]
        intro hmem
        exact absurd (h4 _ hmem) (Nat.lt_irrefl _)
      simp [hz]
    · simp [ht]
      exact h3 t
  · intro t ht
    rw [QueueState.push_task] at ht
    dsimp only at ht
    rw [mem_allTokens] at ht
    dsimp only at ht
    rw [List.mem_append, List.mem_singleton] at ht
    have : t ∈ s.allTokens ∨ t = s.next_token := by
      rw [mem_allTokens]
      tauto
    rcases this with hin | rfl
    · exact Nat.lt_succ_of_lt (h4 t hin)
    · exact Nat.lt_succ_self _

theorem inv_worker (s : QueueState) (h : s.Inv) : s.workerStep.Inv := by
  obtain ⟨h1, h2, h3, h4⟩ := h
  rw [QueueState.workerStep]
  cases hc : s.taskChan with
  | nil => exact ⟨h1, h2, h3, h4⟩
  | cons t rest =>
    refine ⟨h1, h2, ?_, ?_⟩
    · intro x
      have := h3 x
      rw [count_allTokens] at this ⊢
      dsimp only
      rw [hc] at this
      rw [List.count_cons, List.count_append] at *
      simp [List.count_singleton] at *
      omega
    · intro x hx
      apply h4
      rw [mem_allTokens] at hx ⊢
      dsimp only at hx
      rw [hc]
      rw [List.mem_append, List.mem_singleton] at hx
      simp [List.mem_cons]
      tauto

theorem inv_move (s : QueueState) (h : s.Inv) : s.move_results.Inv := by
  obtain ⟨h1, h2, h3, h4⟩ := h
  rw [QueueState.move_results]
  refine ⟨h1, h2, ?_, ?_⟩
  · intro x
    have := h3 x
    rw [count_allTokens] at this ⊢
    dsimp only
    rw [List.count_append]
    simp at *
    omega
  · intro x hx
    apply h4
    rw [mem_allTokens] at hx ⊢
    dsimp only at hx
    rw [List.mem_append] at hx
    simp at hx
    tauto

theorem inv_result (s : QueueState) (k : Nat) (h : s.Inv) : (s.result k).2.Inv := by
  have hm := inv_move s h
  obtain ⟨h1, h2, h3, h4⟩ := hm
  rw [QueueState.result]
  by_cases hk : k ∈ s.move_results.result_map
  · rw [if_pos hk]
    refine ⟨h1, h2, ?_, ?_⟩
    · intro x
      have := h3 x
      rw [count_allTokens] at this ⊢
      dsimp only
      rw [List.count_erase]
      split <;> omega
    · intro x hx
      apply h4
      rw [mem_allTokens] at hx ⊢
      dsimp only at hx
      rcases hx with hx | hx | hx
      · tauto
      · tauto
      · exact Or.inr (Or.inr (List.erase_subset _ _ hx))
  · rw [if_neg hk]
    exact ⟨h1, h2, h3, h4⟩

theorem inv_apply (s : QueueState) (op : QOp) (h : s.Inv) : (s.apply op).Inv := by
  cases op with
  | push => exact inv_push s h
  | worker => exact inv_worker s h
  | getResult k => exact inv_result s k h

theorem inv_applyAll (ops : List QOp) :
    ∀ s : QueueState, s.Inv → (s.applyAll ops).Inv := by
  induction ops with
  | nil => intro s h; exact h
  | cons op rest ih =>
    intro s h
    exact ih (s.apply op) (inv_apply s op h)

/-- Token `k` has left the queue for good: it is in no channel and not in
the map, and the counter is already past it. -/
def QueueState.Gone (s : QueueState) (k : Nat) : Prop :=
  k ∉ s.allTokens ∧ k < s.next_token

theorem gone_apply (s : QueueState) (op : QOp) (k : Nat) (h : s.Gone k) :
    (s.apply op).Gone k := by
  obtain ⟨hmem, hlt⟩ := h
  cases op with
  | push =>
    refine ⟨?_, Nat.lt_succ_of_lt hlt⟩
    rw [QueueState.apply, QueueState.push_task, mem_allTokens]
    dsimp only
    rw [mem_allTokens] at hmem
    rw [List.mem_append, List.mem_singleton]
    rintro (⟨hx | rfl⟩ | hx | hx)
    · exact hmem (Or.inl hx)
    · exact absurd hlt (Nat.lt_irrefl _)
    · exact hmem (Or.inr (Or.inl hx))
    · exact hmem (Or.inr (Or.inr hx))
  | worker =>
    rw [QueueState.apply, QueueState.workerStep]
    cases hc : s.taskChan with
    | nil => exact ⟨hmem, hlt⟩
    | cons t rest =>
      refine ⟨?_, hlt⟩
      rw [mem_allTokens]
      dsimp only
      rw [mem_allTokens, hc] at hmem
      rw [List.mem_append, List.mem_singleton]
      simp only [List.mem_cons] at hmem
      rintro (hx | ⟨hx | rfl⟩ | hx)
      · exact hmem (Or.inl (Or.inr hx))
      · exact hmem (Or.inr (Or.inl hx))
      · exact hmem (Or.inl (Or.inl rfl))
      · exact hmem (Or.inr (Or.inr hx))
  | getResult j =>
    rw [QueueState.apply, QueueState.result]
    have hmem2 : k ∉ s.move_results.allTokens := by
      rw [mem_allTokens]
      rw [QueueState.move_results]
      dsimp only
      rw [mem_allTokens] at hmem
      rw [List.mem_append]
      simp only [List.not_mem_nil]
      tauto
    by_cases hj : j ∈ s.move_results.result_map
    · rw [if_pos hj]
      refine ⟨?_, hlt⟩
      rw [mem_allTokens]
      dsimp only
      rw [mem_allTokens, QueueState.move_results] at hmem2
      dsimp only at hmem2
      rw [QueueState.move_results]
      dsimp only
      rintro (hx | hx | hx)
      · exact hmem2 (Or.inl hx)
      · exact hmem2 (Or.inr (Or.inl hx))
      · exact hmem2 (Or.inr (Or.inr (List.erase_subset _ _ hx)))
    · rw [if_neg hj]
      exact ⟨hmem2, hlt⟩

theorem gone_applyAll (ops : List QOp) :
    ∀ (s : QueueState) (k : Nat), s.Gone k → (s.applyAll ops).Gone k := by
  induction ops with
  | nil => intro s k h; exact h
  | cons op rest ih =>
    intro s k h
    exact ih (s.apply op) k (gone_apply s op k h)

theorem result_none_of_not_mem (s : QueueState) (k : Nat)
    (h : k ∉ s.allTokens) : (s.result k).1 = none := by
  rw [QueueState.result]
  have hk : k ∉ s.move_results.result_map := by
    rw [QueueState.move_results]
    dsimp only
    rw [mem_allTokens] at h
    rw [List.mem_append]
    tauto
  rw [if_neg hk]

theorem gone_after_success (s : QueueState) (k : Nat) (h : s.Inv)
    (hs : (s.result k).1 = some ()) : (s.result k).2.Gone k := by
  have hm := inv_move s h
  obtain ⟨h1, h2, h3, h4⟩ := hm
  rw [QueueState.result] at hs ⊢
  by_cases hk : k ∈ s.move_results.result_map
  · rw [if_pos hk]
    have hcm : 0 < List.count k s.move_results.result_map :=
      List.count_pos_iff.mpr hk
    have hle := h3 k
    rw [count_allTokens] at hle
    constructor
    · rw [mem_allTokens]
      dsimp only
      rintro (hx | hx | hx)
      · have : 0 < List.count k s.move_results.taskChan :=
          List.count_pos_iff.mpr hx
        omega
      · have : 0 < List.count k s.move_results.resultChan :=
          List.count_pos_iff.mpr hx
        omega
      · have : 0 < List.count k (s.move_results.result_map.erase k) :=
          List.count_pos_iff.mpr hx
        rw [List.count_erase] at this
        simp at this
        omega
    · exact h4 k (by rw [mem_allTokens]; tauto)
  · rw [if_neg hk] at hs
    exact absurd hs (by simp)

/-- Claim C8: tokens issued by `push_task` are strictly increasing (never
reused), a token is present in the result map at most once, and a
successful `result` retrieval removes it for good — after any further
interleaving of queue operations, retrieving the same token yields
nothing, so it is delivered to at most one awaiter. -/
theorem c8_token_single_delivery (ops : List QOp) :
    (QueueState.applyAll QueueState.initial ops).issued.Pairwise (· < ·) ∧
    (∀ t, List.count t
        (QueueState.applyAll QueueState.initial ops).result_map ≤ 1) ∧
    (∀ k out, (QueueState.applyAll QueueState.initial ops).result k = out →
       out.1 = some () →
       ∀ ops2, ((out.2.applyAll ops2).result k).1 = none) := by
  have hinv := inv_applyAll ops QueueState.initial inv_initial
  obtain ⟨h1, h2, h3, h4⟩ := hinv
  refine ⟨h1, ?_, ?_⟩
  · intro t
    have := h3 t
    rw [count_allTokens] at this
    omega
  · intro k out heq hsome ops2
    have hinv2 : (QueueState.applyAll QueueState.initial ops).Inv :=
      ⟨h1, h2, h3, h4⟩
    have hres : ((QueueState.applyAll QueueState.initial ops).result k).1 =
        some () := by rw [heq]; exact hsome
    have hgone :
        ((QueueState.applyAll QueueState.initial ops).result k).2.Gone k :=
      gone_after_success _ k hinv2 hres
    have hgone2 : out.2.Gone k := by rw [← heq]; exact hgone
    have hgone3 := gone_applyAll ops2 out.2 k hgone2
    exact result_none_of_not_mem _ k hgone3.1

/-- Witness for C8: push one task, let the worker complete it; the first
retrieval of token 1 succeeds, after which retrieving it again (here with
no further operations in between) yields nothing. -/
theorem c8_token_single_delivery_witness :
    (((QueueState.mk 2 [] [] [] [1]).applyAll []).result 1).1 = none :=
  (c8_token_single_delivery [QOp.push, QOp.worker]).2.2 1
    (some (), QueueState.mk 2 [] [] [] [1]) (by decide) rfl []

end AsyncRt
